import Mathlib

/-!
Verification of the CAN database codec of `src/parsers/database_parser.py`.

The parser module delegates the bit-level packing and unpacking of signals
to the `cantools` library, which is not part of this repository; the
specification describes that behaviour explicitly (bit extraction, byte
orders, sign extension, scaling, clamping, error policy), so the
`cantools`-side operations are modelled from the spec and the wrapper
methods (`load_database`, `get_message_by_id`, `decode_message`,
`encode_message`) are translated from the source.
-/

namespace Can

/-! ## Data model -/

/-- Byte order of a signal (Intel = little endian, Motorola = big endian). -/
inductive ByteOrder where
  | littleEndian
  | bigEndian
deriving DecidableEq

/-- One scalar field within a message (cantools `Signal`).  `scale` and
`offset` are modelled as exact rationals. -/
structure Signal where
  name : String
  start : Nat
  length : Nat
  byte_order : ByteOrder
  is_signed : Bool
  scale : ℚ
  offset : ℚ
  unit : Option String
  choices : Option (List (Int × String))
deriving DecidableEq

/-- One CAN frame template (cantools `Message`).  `length` is the payload
byte length. -/
structure Message where
  frame_id : Nat
  name : String
  length : Nat
  signals : List Signal
deriving DecidableEq

/-- A loaded schema: the collection of messages. -/
structure Database where
  messages : List Message
deriving DecidableEq

/-- The mutable state of the Python `DatabaseParser` object: fields
`self.db`, `self.file_path`, `self.file_type`. -/
structure DatabaseParser where
  db : Option Database
  file_path : Option String
  file_type : Option String
deriving DecidableEq

/-! ## Bit layer, modelled from the spec -/

/-- Modelled from the spec: the little-endian integer value of a byte
buffer — "a multi-byte span is reassembled as a little-endian integer".
Byte 0 is least significant; each entry is a byte (reduced mod 256). -/
def leVal (data : List Nat) : Nat :=
  data.foldr (fun b acc => b % 256 + 256 * acc) 0

/-- Modelled from the spec: the big-endian ("Motorola") integer value of a
byte buffer — "bit 0 is the MSB of byte 0, bit numbering continues into
subsequent bytes with MSB-first ordering". -/
def beVal (data : List Nat) : Nat := leVal data.reverse

/-- Take the `len`-bit window starting at bit `start` (counting from the
least significant bit) of an integer value. -/
def extractBitsLE (v start len : Nat) : Nat := v / 2 ^ start % 2 ^ len

/-- Modelled from the spec: extract the unsigned raw field of signal `s`
from the byte buffer `data`, per the signal's byte-order convention. -/
def rawUnsigned (data : List Nat) (s : Signal) : Nat :=
  match s.byte_order with
  | .littleEndian => extractBitsLE (leVal data) s.start s.length
  | .bigEndian =>
      extractBitsLE (beVal data) (8 * data.length - (s.start + s.length)) s.length

/-- Modelled from the spec: extracted raw integer after two's-complement
sign extension — "if the top extracted bit is 1, subtract 2^length from
the unsigned value". -/
def extractRaw (data : List Nat) (s : Signal) : Int :=
  if s.is_signed then
    (if 2 ^ (s.length - 1) ≤ rawUnsigned data s then
       (rawUnsigned data s : Int) - 2 ^ s.length
     else (rawUnsigned data s : Int))
  else (rawUnsigned data s : Int)

/-! ## Decode path -/

/-- Modelled from the spec: per-signal decode of cantools
`message.decode`.  A signal violating `start_bit + length ≤ 8 *
frame_length` is skipped (`none`); otherwise
`physical = raw * scale + offset`. -/
def decodeSignalPhys (msg : Message) (data : List Nat) (s : Signal) : Option ℚ :=
  if s.start + s.length ≤ 8 * msg.length then
    some ((extractRaw data s : ℚ) * s.scale + s.offset)
  else none

/-- Modelled from the spec: the mapping signal name → physical value that
cantools `message.decode(data)` produces (`decoded_physical` in the
source). -/
def cantoolsDecodePhysical (msg : Message) (data : List Nat) : List (String × ℚ) :=
  msg.signals.filterMap (fun s => (decodeSignalPhys msg data s).map (fun q => (s.name, q)))

/-- Modelled from the spec: the per-signal decode warnings — the names of
the signals skipped because their bit range exceeds the frame length. -/
def decodeWarnings (msg : Message) : List String :=
  msg.signals.filterMap (fun s =>
    if s.start + s.length ≤ 8 * msg.length then none else some s.name)

/-- The empty string (Python `\x27\x27`). -/
def emptyStr : String := ""

/-- Python `int(...)` applied to an exact rational: truncation toward
zero. -/
def pyInt (q : ℚ) : Int := if 0 ≤ q then ⌊q⌋ else ⌈q⌉

/-- One entry of the dictionary built by `decode_message`:
`{'raw': ..., 'physical': ..., 'unit': ...}`. -/
structure DecodedSignal where
  raw : ℚ
  physical : ℚ
  unit : String
deriving DecidableEq

/-- The entry `decode_message` builds for one signal: present exactly when
the signal's name is a key of `decoded_physical`; `raw` recomputed as
`int((physical - offset) / scale)` when `scale != 0`, else the physical
value itself (lines 196–213 of the source). -/
def decodeEntry (message : Message) (data : List Nat) (signal : Signal) :
    Option DecodedSignal :=
  match (cantoolsDecodePhysical message data).lookup signal.name with
  | none => none
  | some physical_value =>
      some
        { raw :=
            if signal.scale ≠ 0 then
              ((pyInt ((physical_value - signal.offset) / signal.scale) : Int) : ℚ)
            else physical_value
          physical := physical_value
          unit := signal.unit.getD emptyStr }

/-- The `result` dictionary of `decode_message`, iterating
`message.signals` in order. -/
def decodeResultList (message : Message) (data : List Nat) :
    List (String × DecodedSignal) :=
  message.signals.filterMap (fun s =>
    (decodeEntry message data s).map (fun e => (s.name, e)))

/-- `Database.get_message_by_frame_id`: lookup of a message by CAN id
(`KeyError` — here `none` — when absent). -/
def Database.get_message_by_frame_id (db : Database) (msg_id : Nat) : Option Message :=
  db.messages.find? (fun m => m.frame_id == msg_id)

/-- `DatabaseParser.get_message_by_id` from the source: `None` when no
database is loaded or the id is unknown. -/
def DatabaseParser.get_message_by_id (p : DatabaseParser) (msg_id : Nat) :
    Option Message :=
  match p.db with
  | none => none
  | some db => db.get_message_by_frame_id msg_id

/-- `DatabaseParser.decode_message` from the source: `None` without a
database or for an unknown id; otherwise the per-signal result dictionary,
collapsed to `None` when empty (`return result if result else None`). -/
def DatabaseParser.decode_message (p : DatabaseParser) (msg_id : Nat)
    (data : List Nat) : Option (List (String × DecodedSignal)) :=
  match p.db with
  | none => none
  | some _ =>
    match p.get_message_by_id msg_id with
    | none => none
    | some message =>
      let result := decodeResultList message data
      if result.isEmpty then none else some result

/-! ## Encode path -/

/-- Two's-complement representation of a raw integer in `length` bits. -/
def toUnsignedRaw (s : Signal) (r : Int) : Nat := (r % (2 ^ s.length : Int)).toNat

/-- Modelled from the spec: clamp a raw integer to the representable range
of the signal's bit width, "considering signedness". -/
def clampRaw (s : Signal) (r : Int) : Int :=
  if s.is_signed then
    max (-(2 ^ (s.length - 1))) (min r (2 ^ (s.length - 1) - 1))
  else
    max 0 (min r (2 ^ s.length - 1))

/-- The little-endian byte decomposition of a value into `n` bytes. -/
def natToBytesLE : Nat → Nat → List Nat
  | 0, _ => []
  | n + 1, v => v % 256 :: natToBytesLE n (v / 256)

/-- Overwrite the `len`-bit window at bit `pos` of the integer value `v`
with `w` (`w < 2 ^ len`): bits below and above the window are kept. -/
def writeBits (v pos len w : Nat) : Nat :=
  v % 2 ^ pos + w * 2 ^ pos + v / 2 ^ (pos + len) * 2 ^ (pos + len)

/-- Modelled from the spec: write the `length`-bit field into the buffer
at `start_bit` "using the same byte-order convention as decode". -/
def writeSignal (buf : List Nat) (s : Signal) (w : Nat) : List Nat :=
  match s.byte_order with
  | .littleEndian => natToBytesLE buf.length (writeBits (leVal buf) s.start s.length w)
  | .bigEndian =>
      (natToBytesLE buf.length
        (writeBits (beVal buf) (8 * buf.length - (s.start + s.length)) s.length w)).reverse

/-- Modelled from the spec: one signal's contribution to the encode fold —
signals absent from the value map leave the buffer untouched; a signal
whose bit range exceeds the frame is skipped (explicit skip policy);
otherwise `raw = round((physical - offset) / scale)` clamped to the
representable range is written. -/
def encodeStep (msg : Message) (vals : List (String × ℚ)) (buf : List Nat)
    (s : Signal) : List Nat :=
  match vals.lookup s.name with
  | none => buf
  | some phys =>
    if s.start + s.length ≤ 8 * msg.length then
      writeSignal buf s (toUnsignedRaw s (clampRaw s (round ((phys - s.offset) / s.scale))))
    else buf

/-- Error tag for a value-map name unknown to the message. -/
def unknownSignalErr : String := "UnknownSignal"

/-- Error tag for encoding through a zero scale. -/
def zeroScaleErr : String := "ZeroScale"

/-- Modelled from the spec: cantools `message.encode(data)` — all-or-
nothing; an unknown signal name or a zero scale aborts the call with an
error and no partial buffer; otherwise the zero-initialised buffer of
`message.length` bytes is filled signal by signal in declaration order
(last write wins). -/
def cantoolsEncode (msg : Message) (vals : List (String × ℚ)) :
    Except String (List Nat) :=
  if vals.any (fun v => msg.signals.all (fun s => !(s.name == v.1))) then
    Except.error unknownSignalErr
  else if msg.signals.any (fun s => (vals.lookup s.name).isSome && decide (s.scale = 0)) then
    Except.error zeroScaleErr
  else
    Except.ok (msg.signals.foldl (encodeStep msg vals) (List.replicate msg.length 0))

/-- A Python `try`/`except` block returning `fallback` when the body
raises. -/
def pyTry {α : Type} (body : Except String α) (fallback : α) : α :=
  match body with
  | Except.ok a => a
  | Except.error _ => fallback

/-- The body of the `try` block of `encode_message`: message lookup, then
`message.encode(data)` whose exceptions propagate to the handler. -/
def DatabaseParser.encodeBody (p : DatabaseParser) (msg_id : Nat)
    (vals : List (String × ℚ)) : Except String (Option (List Nat)) :=
  match p.get_message_by_id msg_id with
  | none => Except.ok none
  | some message => (cantoolsEncode message vals).map some

/-- `DatabaseParser.encode_message` from the source: `None` without a
database; every exception of the body is caught and turned into `None`. -/
def DatabaseParser.encode_message (p : DatabaseParser) (msg_id : Nat)
    (vals : List (String × ℚ)) : Option (List Nat) :=
  match p.db with
  | none => none
  | some _ => pyTry (p.encodeBody msg_id vals) none

/-! ## Loader -/

/-- The environment `load_database` interacts with: file existence, the
lower-cased extension, and `cantools.database.load_file` (with its
optional `database_format`), whose failures are exceptions carrying a
message string. -/
structure FileSystem where
  pathExists : String → Bool
  suffixLower : String → String
  loadFile : String → Option String → Except String Database

/-- Does the character list start with the pattern? -/
def charsBeginWith : List Char → List Char → Bool
  | _, [] => true
  | [], _ :: _ => false
  | c :: cs, d :: ds => c == d && charsBeginWith cs ds

/-- Does the character list contain the pattern as a contiguous run? -/
def charsContain (s pat : List Char) : Bool :=
  match s with
  | [] => charsBeginWith [] pat
  | _ :: rest => charsBeginWith s pat || charsContain rest pat

/-- Python `pat in s` substring test. -/
def containsSubstr (s pat : String) : Bool := charsContain s.toList pat.toList

/-- The sentinel text of the cantools unsupported-SYM-version exception
that the source matches on. -/
def symVersionMarker : String := "Only SYM version 6.0 is supported"

/-- Result of a `load_database` call: the boolean the method returns, the
parser state after the call, and the log lines emitted. -/
structure LoadResult where
  ok : Bool
  parser : DatabaseParser
  log : List String
deriving DecidableEq

/-- File-type tag for DBC. -/
def strDbc : String := "dbc"

/-- File-type tag for SYM. -/
def strSym : String := "sym"

/-- `DatabaseParser.load_database` from the source, logging included.
`self.db`/`self.file_type`/`self.file_path` are only assigned on the
success paths; every failure path returns `False` with the state
untouched. -/
def DatabaseParser.load_database (p : DatabaseParser) (fs : FileSystem)
    (file_path : String) : LoadResult :=
  if !(fs.pathExists file_path) then
    ⟨false, p, ["File not found: " ++ file_path]⟩
  else
    if fs.suffixLower file_path = ".dbc" then
      match fs.loadFile file_path none with
      | Except.ok db =>
          ⟨true, { p with db := some db, file_type := some strDbc, file_path := some file_path },
            ["Loaded DBC file: " ++ file_path,
             "Found " ++ toString db.messages.length ++ " messages"]⟩
      | Except.error e => ⟨false, p, ["Failed to load database: " ++ e]⟩
    else if fs.suffixLower file_path = ".sym" then
      match fs.loadFile file_path (some strSym) with
      | Except.ok db =>
          ⟨true, { p with db := some db, file_type := some strSym, file_path := some file_path },
            ["Loaded SYM file: " ++ file_path,
             "Found " ++ toString db.messages.length ++ " messages"]⟩
      | Except.error e =>
          if containsSubstr e symVersionMarker then
            ⟨false, p,
              ["SYM file version not supported by cantools",
               "cantools only supports SYM version 6.0",
               "Please convert your SYM file to:",
               "  1. DBC format (recommended) - use Vector CANdb++ or similar tools",
               "  2. SYM version 6.0 - if your tool supports exporting to this version",
               "  3. Use a DBC file instead"]⟩
          else ⟨false, p, ["Failed to load database: " ++ e]⟩
    else ⟨false, p, ["Unsupported file type: " ++ fs.suffixLower file_path]⟩

/-- The raw integers representable in the signal's bit width given its
signedness. -/
def rawRepresentable (s : Signal) (r : Int) : Prop :=
  if s.is_signed then
    -(2 ^ (s.length - 1)) ≤ r ∧ r ≤ 2 ^ (s.length - 1) - 1
  else 0 ≤ r ∧ r ≤ 2 ^ s.length - 1

instance (s : Signal) (r : Int) : Decidable (rawRepresentable s r) := by
  unfold rawRepresentable
  infer_instance

/-- Erase the display-only `choices` field of a signal. -/
def Signal.stripChoices (s : Signal) : Signal := { s with choices := none }

/-- Erase all `choices` fields of a message. -/
def Message.stripChoices (m : Message) : Message :=
  { m with signals := m.signals.map Signal.stripChoices }

/-- Erase all `choices` fields of a database. -/
def Database.stripChoices (db : Database) : Database :=
  ⟨db.messages.map Message.stripChoices⟩

/-! ## Helper lemmas: bit layer -/

theorem natToBytesLE_length (n v : Nat) : (natToBytesLE n v).length = n := by
  induction n generalizing v with
  | zero => rfl
  | succ n ih => simp [natToBytesLE, ih]

theorem leVal_cons (b : Nat) (l : List Nat) :
    leVal (b :: l) = b % 256 + 256 * leVal l := rfl

theorem leVal_natToBytesLE (n v : Nat) :
    leVal (natToBytesLE n v) = v % 2 ^ (8 * n) := by
  induction n generalizing v with
  | zero => simp [natToBytesLE, leVal, Nat.mod_one]
  | succ n ih =>
    have hpow : (2 : ℕ) ^ (8 * (n + 1)) = 256 * 2 ^ (8 * n) := by
      have h8 : 8 * (n + 1) = 8 + 8 * n := by ring
      rw [h8, pow_add]
      norm_num
    rw [natToBytesLE, leVal_cons, ih, hpow, Nat.mod_mul, Nat.mod_mod_of_dvd v (dvd_refl 256)]

theorem leVal_replicate_zero (n : Nat) : leVal (List.replicate n 0) = 0 := by
  induction n with
  | zero => rfl
  | succ n ih => rw [List.replicate_succ, leVal_cons, ih]

theorem writeSignal_length (buf : List Nat) (s : Signal) (w : Nat) :
    (writeSignal buf s w).length = buf.length := by
  unfold writeSignal
  cases s.byte_order <;> simp [natToBytesLE_length]

theorem writeBits_zero (pos len w : Nat) : writeBits 0 pos len w = w * 2 ^ pos := by
  simp [writeBits]

theorem extract_write_eq (w pos len n : Nat) (hw : w < 2 ^ len)
    (h : pos + len ≤ 8 * n) :
    extractBitsLE (leVal (natToBytesLE n (writeBits 0 pos len w))) pos len = w := by
  have hlt : w * 2 ^ pos < 2 ^ (8 * n) := by
    calc w * 2 ^ pos < 2 ^ len * 2 ^ pos :=
          (Nat.mul_lt_mul_right (Nat.two_pow_pos pos)).mpr hw
      _ = 2 ^ (pos + len) := by rw [← pow_add, Nat.add_comm]
      _ ≤ 2 ^ (8 * n) := Nat.pow_le_pow_right (by norm_num) h
  rw [writeBits_zero, leVal_natToBytesLE, Nat.mod_eq_of_lt hlt, extractBitsLE,
    Nat.mul_div_cancel w (Nat.two_pow_pos pos), Nat.mod_eq_of_lt hw]

theorem rawUnsigned_writeSignal_zero (n : Nat) (s : Signal) (w : Nat)
    (hw : w < 2 ^ s.length) (h : s.start + s.length ≤ 8 * n) :
    rawUnsigned (writeSignal (List.replicate n 0) s w) s = w := by
  unfold rawUnsigned writeSignal
  cases hbo : s.byte_order with
  | littleEndian =>
    simp only [List.length_replicate]
    rw [leVal_replicate_zero]
    exact extract_write_eq w s.start s.length n hw h
  | bigEndian =>
    have hbval : beVal (List.replicate n 0) = 0 := by
      rw [beVal, List.reverse_replicate, leVal_replicate_zero]
    simp only [List.length_replicate, List.length_reverse, natToBytesLE_length, hbval]
    rw [beVal, List.reverse_reverse]
    exact extract_write_eq w (8 * n - (s.start + s.length)) s.length n hw (by omega)

theorem toUnsignedRaw_lt (s : Signal) (r : Int) : toUnsignedRaw s r < 2 ^ s.length := by
  have hpos : (0 : ℤ) < 2 ^ s.length := by positivity
  have hlt : r % (2 ^ s.length : ℤ) < 2 ^ s.length := Int.emod_lt_of_pos r hpos
  have hnn : (0 : ℤ) ≤ r % (2 ^ s.length : ℤ) := Int.emod_nonneg r (ne_of_gt hpos)
  unfold toUnsignedRaw
  zify
  rw [Int.toNat_of_nonneg hnn]
  exact hlt

theorem toUnsignedRaw_cast (s : Signal) (r : Int) :
    (toUnsignedRaw s r : Int) = r % (2 ^ s.length : ℤ) := by
  have hpos : (0 : ℤ) < 2 ^ s.length := by positivity
  exact Int.toNat_of_nonneg (Int.emod_nonneg r (ne_of_gt hpos))

theorem extractRaw_writeSignal (n : Nat) (s : Signal) (r : Int)
    (hlen : 1 ≤ s.length) (h : s.start + s.length ≤ 8 * n)
    (hrep : rawRepresentable s r) :
    extractRaw (writeSignal (List.replicate n 0) s (toUnsignedRaw s r)) s = r := by
  have hw := rawUnsigned_writeSignal_zero n s (toUnsignedRaw s r)
    (toUnsignedRaw_lt s r) h
  have hcast := toUnsignedRaw_cast s r
  obtain ⟨k, hk⟩ : ∃ k, s.length = k + 1 := ⟨s.length - 1, by omega⟩
  have hk1 : s.length - 1 = k := by omega
  have htwo : (2 : ℤ) ^ s.length = 2 * 2 ^ (s.length - 1) := by
    rw [hk]
    have hkk : k + 1 - 1 = k := rfl
    rw [hkk, pow_succ]
    ring
  unfold extractRaw
  rw [hw]
  unfold rawRepresentable at hrep
  cases hsg : s.is_signed with
  | false =>
    simp only [hsg, if_false, Bool.false_eq_true] at hrep ⊢
    have hrr : r % (2 ^ s.length : ℤ) = r := by
      apply Int.emod_eq_of_lt hrep.1
      have : r ≤ (2 : ℤ) ^ s.length - 1 := hrep.2
      omega
    rw [hcast, hrr]
  | true =>
    simp only [hsg, if_true] at hrep ⊢
    rcases le_or_lt 0 r with hr0 | hr0
    · have hrlt : r < (2 : ℤ) ^ (s.length - 1) := by
        have := hrep.2
        omega
      have hrr : r % (2 ^ s.length : ℤ) = r := by
        apply Int.emod_eq_of_lt hr0
        calc r < (2 : ℤ) ^ (s.length - 1) := hrlt
          _ ≤ 2 ^ s.length := by rw [htwo]; omega
      have hcond : ¬ 2 ^ (s.length - 1) ≤ toUnsignedRaw s r := by
        intro hcond
        have : ((2 : ℕ) ^ (s.length - 1) : ℤ) ≤ (toUnsignedRaw s r : ℤ) := by
          exact_mod_cast hcond
        rw [hcast, hrr] at this
        push_cast at this
        omega
      rw [if_neg hcond, hcast, hrr]
    · have hlow := hrep.1
      have hrr : r % (2 ^ s.length : ℤ) = r + 2 ^ s.length := by
        have hmod : (r + 2 ^ s.length) % (2 ^ s.length : ℤ) = r % (2 ^ s.length : ℤ) := by
          have hself := Int.add_mul_emod_self_left r ((2 : ℤ) ^ s.length) 1
          simp only [mul_one] at hself
          exact hself
        rw [← hmod]
        apply Int.emod_eq_of_lt
        · rw [htwo]; omega
        · omega
      have hcond : 2 ^ (s.length - 1) ≤ toUnsignedRaw s r := by
        have hz : ((2 : ℕ) ^ (s.length - 1) : ℤ) ≤ (toUnsignedRaw s r : ℤ) := by
          rw [hcast, hrr]
          push_cast
          omega
        exact_mod_cast hz
      rw [if_pos hcond, hcast, hrr]
      ring

theorem clampRaw_eq_of_representable (s : Signal) (r : Int)
    (hrep : rawRepresentable s r) : clampRaw s r = r := by
  unfold rawRepresentable at hrep
  unfold clampRaw
  cases hsg : s.is_signed with
  | false =>
    simp only [hsg, Bool.false_eq_true, if_false] at hrep ⊢
    omega
  | true =>
    simp only [hsg, if_true] at hrep ⊢
    omega

theorem pyInt_intCast (r : Int) : pyInt ((r : ℤ) : ℚ) = r := by
  unfold pyInt
  split
  · exact Int.floor_intCast r
  · exact Int.ceil_intCast r

/-! ## Helper lemmas: association lists keyed by signal names -/

theorem lookup_filterMap_of_not_mem {β : Type} (l : List Signal)
    (f : Signal → Option β) (nm : String) (h : ∀ t ∈ l, t.name ≠ nm) :
    (l.filterMap (fun t => (f t).map (fun b => (t.name, b)))).lookup nm = none := by
  induction l with
  | nil => rfl
  | cons a rest ih =>
    rw [List.filterMap_cons]
    cases hfa : f a with
    | none =>
      simp only [Option.map_none']
      exact ih (fun t ht => h t (List.mem_cons_of_mem a ht))
    | some b =>
      simp only [Option.map_some']
      rw [List.lookup_cons]
      have hne : (nm == a.name) = false :=
        beq_false_of_ne (fun he => h a (List.mem_cons_self a rest) he.symm)
      rw [hne]
      exact ih (fun t ht => h t (List.mem_cons_of_mem a ht))

theorem lookup_filterMap_name {β : Type} (l : List Signal) (f : Signal → Option β)
    (s : Signal) (hNd : (l.map Signal.name).Nodup) (hs : s ∈ l) :
    (l.filterMap (fun t => (f t).map (fun b => (t.name, b)))).lookup s.name = f s := by
  induction l with
  | nil => exact absurd hs (List.not_mem_nil s)
  | cons a rest ih =>
    rw [List.map_cons, List.nodup_cons] at hNd
    rw [List.filterMap_cons]
    rcases List.mem_cons.mp hs with heq | hmem
    · subst heq
      cases hfa : f s with
      | none =>
        simp only [Option.map_none']
        exact lookup_filterMap_of_not_mem rest f s.name
          (fun t ht he => hNd.1 (he ▸ List.mem_map_of_mem Signal.name ht))
      | some b =>
        simp only [Option.map_some']
        rw [List.lookup_cons]
        simp
    · have hne : s.name ≠ a.name := by
        intro he
        exact hNd.1 (he ▸ List.mem_map_of_mem Signal.name hmem)
      cases hfa : f a with
      | none =>
        simp only [Option.map_none']
        exact ih hNd.2 hmem
      | some b =>
        simp only [Option.map_some']
        rw [List.lookup_cons, beq_false_of_ne hne]
        exact ih hNd.2 hmem

theorem lookup_cantoolsDecodePhysical (msg : Message) (data : List Nat) (s : Signal)
    (hNd : (msg.signals.map Signal.name).Nodup) (hs : s ∈ msg.signals) :
    (cantoolsDecodePhysical msg data).lookup s.name = decodeSignalPhys msg data s :=
  lookup_filterMap_name msg.signals (decodeSignalPhys msg data) s hNd hs

theorem lookup_decodeResultList (message : Message) (data : List Nat) (s : Signal)
    (hNd : (message.signals.map Signal.name).Nodup) (hs : s ∈ message.signals) :
    (decodeResultList message data).lookup s.name = decodeEntry message data s :=
  lookup_filterMap_name message.signals (decodeEntry message data) s hNd hs

theorem signal_eq_of_name_eq {l : List Signal} (hNd : (l.map Signal.name).Nodup)
    {s t : Signal} (hs : s ∈ l) (ht : t ∈ l) (h : s.name = t.name) : s = t :=
  List.inj_on_of_nodup_map hNd hs ht h

/-! ## Helper lemmas: the encode fold -/

theorem foldl_encodeStep_of_none (msg : Message) (vals : List (String × ℚ))
    (l : List Signal) (buf : List Nat)
    (h : ∀ t ∈ l, vals.lookup t.name = none) :
    l.foldl (encodeStep msg vals) buf = buf := by
  induction l generalizing buf with
  | nil => rfl
  | cons a rest ih =>
    rw [List.foldl_cons]
    have hstep : encodeStep msg vals buf a = buf := by
      unfold encodeStep
      rw [h a (List.mem_cons_self a rest)]
    rw [hstep]
    exact ih buf (fun t ht => h t (List.mem_cons_of_mem a ht))

theorem lookup_single (nm key : String) (phys : ℚ) :
    List.lookup nm [(key, phys)] = if nm == key then some phys else none := by
  rw [List.lookup_cons]
  split <;> simp_all

theorem foldl_encodeStep_single (msg : Message) (s : Signal) (phys : ℚ)
    (l : List Signal) (buf : List Nat)
    (hNd : (l.map Signal.name).Nodup) (hs : s ∈ l) :
    l.foldl (encodeStep msg [(s.name, phys)]) buf =
      encodeStep msg [(s.name, phys)] buf s := by
  induction l generalizing buf with
  | nil => exact absurd hs (List.not_mem_nil s)
  | cons a rest ih =>
    rw [List.map_cons, List.nodup_cons] at hNd
    rw [List.foldl_cons]
    rcases List.mem_cons.mp hs with heq | hmem
    · subst heq
      apply foldl_encodeStep_of_none
      intro t ht
      rw [lookup_single]
      have hne : t.name ≠ s.name := by
        intro he
        exact hNd.1 (he ▸ List.mem_map_of_mem Signal.name ht)
      rw [beq_false_of_ne hne]
      simp
    · have hne : a.name ≠ s.name := by
        intro he
        exact hNd.1 (he ▸ List.mem_map_of_mem Signal.name hmem)
      have hstep : encodeStep msg [(s.name, phys)] buf a = buf := by
        unfold encodeStep
        rw [lookup_single, beq_false_of_ne hne]
        simp
      rw [hstep]
      exact ih buf hNd.2 hmem

/-! ## Claim theorems -/

/-- Claim C1: for every message in the loaded database and every signal in
it with nonzero scale, and every raw integer `r` representable in the
signal's bit width given its signedness, encoding the physical value
`r * scale + offset` via `encode_message` and decoding the produced bytes
via `decode_message` yields a result whose `raw` entry for that signal is
`r`, for both byte orders and both signednesses. -/
theorem claim1_raw_round_trip (p : DatabaseParser) (db : Database) (msg : Message)
    (s : Signal) (msg_id : Nat) (r : Int)
    (hdb : p.db = some db)
    (hmsg : db.get_message_by_frame_id msg_id = some msg)
    (hs : s ∈ msg.signals)
    (hNd : (msg.signals.map Signal.name).Nodup)
    (hlen : 1 ≤ s.length)
    (hrange : s.start + s.length ≤ 8 * msg.length)
    (hscale : s.scale ≠ 0)
    (hrep : rawRepresentable s r) :
    ∃ bytes m e,
      p.encode_message msg_id [(s.name, (r : ℚ) * s.scale + s.offset)] = some bytes ∧
      p.decode_message msg_id bytes = some m ∧
      m.lookup s.name = some e ∧ e.raw = (r : ℚ) := by
  have hget : p.get_message_by_id msg_id = some msg := by
    unfold DatabaseParser.get_message_by_id
    rw [hdb]
    exact hmsg
  have hdiv : ((r : ℚ) * s.scale + s.offset - s.offset) / s.scale = (r : ℚ) := by
    rw [add_sub_cancel_right, mul_div_cancel_right₀ _ hscale]
  have hclamp :
      clampRaw s (round (((r : ℚ) * s.scale + s.offset - s.offset) / s.scale)) = r := by
    rw [hdiv, round_intCast]
    exact clampRaw_eq_of_representable s r hrep
  have hlook : List.lookup s.name [(s.name, (r : ℚ) * s.scale + s.offset)] =
      some ((r : ℚ) * s.scale + s.offset) := by
    rw [lookup_single]
    simp
  have hguard1 : ([(s.name, (r : ℚ) * s.scale + s.offset)] : List (String × ℚ)).any
      (fun v => msg.signals.all (fun t => !(t.name == v.1))) = false := by
    simp only [List.any_cons, List.any_nil, Bool.or_false]
    exact List.all_eq_false.mpr ⟨s, hs, by simp⟩
  have hguard2 : msg.signals.any
      (fun t => (List.lookup t.name [(s.name, (r : ℚ) * s.scale + s.offset)]).isSome &&
        decide (t.scale = 0)) = false := by
    rw [List.any_eq_false]
    intro t ht
    by_cases hn : t.name = s.name
    · have hts : t = s := signal_eq_of_name_eq hNd ht hs hn
      subst hts
      simp [lookup_single, hscale]
    · simp [lookup_single, beq_false_of_ne hn]
  have hstep : encodeStep msg [(s.name, (r : ℚ) * s.scale + s.offset)]
      (List.replicate msg.length 0) s =
      writeSignal (List.replicate msg.length 0) s (toUnsignedRaw s r) := by
    unfold encodeStep
    simp only [hlook]
    rw [if_pos hrange, hclamp]
  have hencode : cantoolsEncode msg [(s.name, (r : ℚ) * s.scale + s.offset)] =
      Except.ok (writeSignal (List.replicate msg.length 0) s (toUnsignedRaw s r)) := by
    unfold cantoolsEncode
    simp only [hguard1, hguard2, Bool.false_eq_true, if_false]
    rw [foldl_encodeStep_single msg s ((r : ℚ) * s.scale + s.offset) msg.signals
      (List.replicate msg.length 0) hNd hs, hstep]
  have hencmsg : p.encode_message msg_id [(s.name, (r : ℚ) * s.scale + s.offset)] =
      some (writeSignal (List.replicate msg.length 0) s (toUnsignedRaw s r)) := by
    unfold DatabaseParser.encode_message
    simp only [hdb]
    unfold DatabaseParser.encodeBody
    simp only [hget, hencode]
    rfl
  have hraw : extractRaw (writeSignal (List.replicate msg.length 0) s (toUnsignedRaw s r)) s
      = r := extractRaw_writeSignal msg.length s r hlen hrange hrep
  have hdsp : decodeSignalPhys msg
      (writeSignal (List.replicate msg.length 0) s (toUnsignedRaw s r)) s =
      some ((r : ℚ) * s.scale + s.offset) := by
    unfold decodeSignalPhys
    rw [if_pos hrange, hraw]
  have hentry : decodeEntry msg
      (writeSignal (List.replicate msg.length 0) s (toUnsignedRaw s r)) s =
      some ⟨(r : ℚ), (r : ℚ) * s.scale + s.offset, s.unit.getD emptyStr⟩ := by
    unfold decodeEntry
    simp only [lookup_cantoolsDecodePhysical msg _ s hNd hs, hdsp]
    rw [if_pos hscale, hdiv, pyInt_intCast]
  have hlookres : (decodeResultList msg
      (writeSignal (List.replicate msg.length 0) s (toUnsignedRaw s r))).lookup s.name =
      some ⟨(r : ℚ), (r : ℚ) * s.scale + s.offset, s.unit.getD emptyStr⟩ := by
    rw [lookup_decodeResultList msg _ s hNd hs, hentry]
  have hne : (decodeResultList msg
      (writeSignal (List.replicate msg.length 0) s (toUnsignedRaw s r))).isEmpty = false := by
    cases hres : decodeResultList msg
        (writeSignal (List.replicate msg.length 0) s (toUnsignedRaw s r)) with
    | nil =>
      rw [hres, List.lookup_nil] at hlookres
      exact absurd hlookres (by simp)
    | cons a l => rfl
  have hdecmsg : p.decode_message msg_id
      (writeSignal (List.replicate msg.length 0) s (toUnsignedRaw s r)) =
      some (decodeResultList msg
        (writeSignal (List.replicate msg.length 0) s (toUnsignedRaw s r))) := by
    unfold DatabaseParser.decode_message
    simp only [hdb, hget, hne, Bool.false_eq_true, if_false]
  exact ⟨writeSignal (List.replicate msg.length 0) s (toUnsignedRaw s r),
    decodeResultList msg (writeSignal (List.replicate msg.length 0) s (toUnsignedRaw s r)),
    ⟨(r : ℚ), (r : ℚ) * s.scale + s.offset, s.unit.getD emptyStr⟩,
    hencmsg, hdecmsg, hlookres, rfl⟩

/-! ## Concrete sample data for witnesses and counterexamples -/

/-- An 8-bit unsigned little-endian signal with unit scaling. -/
def sig1 : Signal := ⟨"S", 0, 8, ByteOrder.littleEndian, false, 1, 0, none, none⟩

/-- A two-byte message holding `sig1`. -/
def msg1 : Message := ⟨1, "M", 2, [sig1]⟩

/-- A message with frame id 7 and no signals at all. -/
def msgEmpty : Message := ⟨7, "E", 8, []⟩

/-- A malformed signal: its bit range (16 + 8 = 24 bits) exceeds the two
bytes of `msg3`. -/
def sigBad : Signal := ⟨"B", 16, 8, ByteOrder.littleEndian, false, 1, 0, none, none⟩

/-- A two-byte message holding one well-formed and one malformed signal. -/
def msg3 : Message := ⟨3, "M3", 2, [sig1, sigBad]⟩

/-- A sample database with one normal message, one signal-less message and
one message with a malformed signal. -/
def db1 : Database := ⟨[msg1, msgEmpty, msg3]⟩

/-- A parser that has loaded `db1`. -/
def parser1 : DatabaseParser := ⟨some db1, none, none⟩

/-- A signal name that no sample message declares. -/
def nameX : String := "X"

/-- Another signal name that no sample message declares. -/
def nameY : String := "Y"

/-- Claim C1, witness: the round trip at raw value 5 through the 8-bit
unsigned signal of the sample database. -/
theorem claim1_raw_round_trip_witness :
    ∃ bytes m e,
      parser1.encode_message 1 [(sig1.name, ((5 : ℤ) : ℚ) * sig1.scale + sig1.offset)] =
        some bytes ∧
      parser1.decode_message 1 bytes = some m ∧
      m.lookup sig1.name = some e ∧ e.raw = ((5 : ℤ) : ℚ) :=
  claim1_raw_round_trip parser1 db1 msg1 sig1 1 5 rfl (by decide) (by decide)
    (by decide) (by decide) (by decide) (by decide) (by decide)

/-! ## Choices are display-only -/

theorem decodeSignalPhys_strip (m : Message) (data : List Nat) (s : Signal) :
    decodeSignalPhys m.stripChoices data s.stripChoices = decodeSignalPhys m data s := rfl

theorem cantoolsDecodePhysical_strip (m : Message) (data : List Nat) :
    cantoolsDecodePhysical m.stripChoices data = cantoolsDecodePhysical m data := by
  show (m.signals.map Signal.stripChoices).filterMap _ = _
  rw [List.filterMap_map]
  rfl

theorem decodeEntry_strip (m : Message) (data : List Nat) (s : Signal) :
    decodeEntry m.stripChoices data s.stripChoices = decodeEntry m data s := by
  unfold decodeEntry
  rw [cantoolsDecodePhysical_strip]
  rfl

theorem decodeResultList_strip (m : Message) (data : List Nat) :
    decodeResultList m.stripChoices data = decodeResultList m data := by
  show (m.signals.map Signal.stripChoices).filterMap _ = _
  rw [List.filterMap_map]
  apply List.filterMap_congr
  intro s _
  show (decodeEntry m.stripChoices data s.stripChoices).map _ = _
  rw [decodeEntry_strip]
  rfl

theorem get_message_by_frame_id_strip (db : Database) (msg_id : Nat) :
    db.stripChoices.get_message_by_frame_id msg_id =
      (db.get_message_by_frame_id msg_id).map Message.stripChoices := by
  unfold Database.get_message_by_frame_id Database.stripChoices
  rw [List.find?_map]
  rfl

theorem cantoolsEncode_strip (m : Message) (vals : List (String × ℚ)) :
    cantoolsEncode m.stripChoices vals = cantoolsEncode m vals := by
  unfold cantoolsEncode
  have h1 : (fun v : String × ℚ => m.stripChoices.signals.all fun s => !(s.name == v.1)) =
      (fun v : String × ℚ => m.signals.all fun s => !(s.name == v.1)) := by
    funext v
    show ((m.signals.map Signal.stripChoices).all _) = _
    rw [List.all_map]
    rfl
  have h2 : (m.stripChoices.signals.any fun s =>
        (vals.lookup s.name).isSome && decide (s.scale = 0)) =
      (m.signals.any fun s => (vals.lookup s.name).isSome && decide (s.scale = 0)) := by
    show ((m.signals.map Signal.stripChoices).any _) = _
    rw [List.any_map]
    rfl
  have h3 : m.stripChoices.signals.foldl (encodeStep m.stripChoices vals)
        (List.replicate m.stripChoices.length 0) =
      m.signals.foldl (encodeStep m vals) (List.replicate m.length 0) := by
    show (m.signals.map Signal.stripChoices).foldl _ _ = _
    rw [List.foldl_map]
    rfl
  rw [h1, h2, h3]

/-- Claim C4: choices are display-only — erasing every signal's `choices`
mapping from the loaded database changes neither the result of
`decode_message` (raw and physical values alike) nor the bytes produced by
`encode_message`. -/
theorem claim4_choices_display_only (db : Database) (fp ft : Option String)
    (msg_id : Nat) (data : List Nat) (vals : List (String × ℚ)) :
    DatabaseParser.decode_message ⟨some db.stripChoices, fp, ft⟩ msg_id data =
      DatabaseParser.decode_message ⟨some db, fp, ft⟩ msg_id data ∧
    DatabaseParser.encode_message ⟨some db.stripChoices, fp, ft⟩ msg_id vals =
      DatabaseParser.encode_message ⟨some db, fp, ft⟩ msg_id vals := by
  have hget : DatabaseParser.get_message_by_id ⟨some db.stripChoices, fp, ft⟩ msg_id =
      (db.get_message_by_frame_id msg_id).map Message.stripChoices :=
    get_message_by_frame_id_strip db msg_id
  have hget2 : DatabaseParser.get_message_by_id ⟨some db, fp, ft⟩ msg_id =
      db.get_message_by_frame_id msg_id := rfl
  cases hm : db.get_message_by_frame_id msg_id with
  | none =>
    have h1 : DatabaseParser.get_message_by_id ⟨some db.stripChoices, fp, ft⟩ msg_id = none := by
      rw [hget, hm]
      rfl
    have h2 : DatabaseParser.get_message_by_id ⟨some db, fp, ft⟩ msg_id = none := by
      rw [hget2, hm]
    constructor
    · unfold DatabaseParser.decode_message
      simp only [h1, h2]
    · unfold DatabaseParser.encode_message DatabaseParser.encodeBody
      simp only [h1, h2]
  | some m =>
    have h1 : DatabaseParser.get_message_by_id ⟨some db.stripChoices, fp, ft⟩ msg_id =
        some m.stripChoices := by
      rw [hget, hm]
      rfl
    have h2 : DatabaseParser.get_message_by_id ⟨some db, fp, ft⟩ msg_id = some m := by
      rw [hget2, hm]
    constructor
    · unfold DatabaseParser.decode_message
      simp only [h1, h2, decodeResultList_strip]
    · unfold DatabaseParser.encode_message DatabaseParser.encodeBody
      simp only [h1, h2, cantoolsEncode_strip]

/-- Claim C3: partial decode — when a known message contains a signal
whose `start_bit + length` exceeds `8 *` the frame's declared byte length,
`decode_message` skips that signal (its name appears among the per-signal
decode warnings and not in the result) while still returning the decoded
values of every other well-formed signal; the message decode is not failed
wholesale. -/
theorem claim3_partial_decode (p : DatabaseParser) (db : Database) (msg : Message)
    (msg_id : Nat) (data : List Nat) (sBad sGood : Signal)
    (hdb : p.db = some db)
    (hmsg : db.get_message_by_frame_id msg_id = some msg)
    (hNd : (msg.signals.map Signal.name).Nodup)
    (hbad : sBad ∈ msg.signals)
    (hbadrange : 8 * msg.length < sBad.start + sBad.length)
    (hgood : sGood ∈ msg.signals)
    (hgoodrange : sGood.start + sGood.length ≤ 8 * msg.length) :
    ∃ m, p.decode_message msg_id data = some m ∧
      sBad.name ∈ decodeWarnings msg ∧
      m.lookup sBad.name = none ∧
      m.lookup sGood.name = decodeEntry msg data sGood ∧
      (decodeEntry msg data sGood).isSome = true := by
  have hget : p.get_message_by_id msg_id = some msg := by
    unfold DatabaseParser.get_message_by_id
    rw [hdb]
    exact hmsg
  have hgoodphys : decodeSignalPhys msg data sGood =
      some ((extractRaw data sGood : ℚ) * sGood.scale + sGood.offset) := by
    unfold decodeSignalPhys
    rw [if_pos hgoodrange]
  have hgoodentry : (decodeEntry msg data sGood).isSome = true := by
    unfold decodeEntry
    rw [lookup_cantoolsDecodePhysical msg data sGood hNd hgood, hgoodphys]
    rfl
  have hbadentry : decodeEntry msg data sBad = none := by
    unfold decodeEntry
    rw [lookup_cantoolsDecodePhysical msg data sBad hNd hbad]
    unfold decodeSignalPhys
    rw [if_neg (by omega)]
  have hlookbad : (decodeResultList msg data).lookup sBad.name = none := by
    rw [lookup_decodeResultList msg data sBad hNd hbad, hbadentry]
  have hlookgood : (decodeResultList msg data).lookup sGood.name =
      decodeEntry msg data sGood :=
    lookup_decodeResultList msg data sGood hNd hgood
  have hwarn : sBad.name ∈ decodeWarnings msg := by
    unfold decodeWarnings
    exact List.mem_filterMap.mpr ⟨sBad, hbad, by rw [if_neg (by omega)]⟩
  have hne : (decodeResultList msg data).isEmpty = false := by
    cases hres : decodeResultList msg data with
    | nil =>
      rw [hres, List.lookup_nil] at hlookgood
      rw [← hlookgood] at hgoodentry
      exact absurd hgoodentry (by simp)
    | cons a l => rfl
  refine ⟨decodeResultList msg data, ?_, hwarn, hlookbad, hlookgood, hgoodentry⟩
  unfold DatabaseParser.decode_message
  simp only [hdb, hget, hne, Bool.false_eq_true, if_false]

/-- Claim C3, witness: decoding frame id 3 of the sample database — the
out-of-range signal `B` is skipped with a warning while signal `S` still
decodes. -/
theorem claim3_partial_decode_witness :
    ∃ m, parser1.decode_message 3 [0, 0] = some m ∧
      sigBad.name ∈ decodeWarnings msg3 ∧
      m.lookup sigBad.name = none ∧
      m.lookup sig1.name = decodeEntry msg3 [0, 0] sig1 ∧
      (decodeEntry msg3 [0, 0] sig1).isSome = true :=
  claim3_partial_decode parser1 db1 msg3 3 [0, 0] sigBad sig1 rfl (by decide)
    (by decide) (by decide) (by decide) (by decide) (by decide)

/-- Claim C10: whenever `decode_message` reaches a known message but
assembles an empty per-signal result map, it returns `None` rather than an
empty map — indistinguishable at the interface from an unknown frame
id. -/
theorem claim10_empty_result_none (p : DatabaseParser) (msg_id : Nat)
    (data : List Nat) (msg : Message)
    (hget : p.get_message_by_id msg_id = some msg)
    (hempty : decodeResultList msg data = []) :
    p.decode_message msg_id data = none := by
  cases hdb : p.db with
  | none =>
    unfold DatabaseParser.get_message_by_id at hget
    rw [hdb] at hget
    exact absurd hget (by simp)
  | some db =>
    unfold DatabaseParser.decode_message
    simp only [hdb, hget, hempty, List.isEmpty_nil, if_true]

/-- Claim C10, witness: frame id 7 of the sample database names a message
with no signals; its decode returns `None`. -/
theorem claim10_empty_result_none_witness :
    parser1.decode_message 7 [1, 2] = none :=
  claim10_empty_result_none parser1 7 [1, 2] msgEmpty (by decide) (by decide)

/-- Claim C5, counterexample: frame id 7 is present in the loaded
database, yet `decode_message` fails (returns `None`) because the matched
message carries no signals — refuting "for every frame_id present in the
database, message-level decode succeeds" and "fails only if the frame_id
is unknown". -/
theorem claim5_counterexample :
    db1.get_message_by_frame_id 7 = some msgEmpty ∧
    parser1.decode_message 7 [0, 0, 0, 0, 0, 0, 0, 0] = none := by decide

/-- Claim C5 (amended): `decode_message` never raises; with a database
loaded it returns `None` exactly when the frame id is unknown to the
database or the matched message assembles an empty per-signal result map;
for every other known frame id, decode succeeds. -/
theorem claim5_unknown_frame_amended (p : DatabaseParser) (db : Database)
    (msg_id : Nat) (data : List Nat) (hdb : p.db = some db) :
    p.decode_message msg_id data = none ↔
      db.get_message_by_frame_id msg_id = none ∨
      ∃ msg, db.get_message_by_frame_id msg_id = some msg ∧
        decodeResultList msg data = [] := by
  have hget : p.get_message_by_id msg_id = db.get_message_by_frame_id msg_id := by
    unfold DatabaseParser.get_message_by_id
    rw [hdb]
  unfold DatabaseParser.decode_message
  simp only [hdb, hget]
  cases hm : db.get_message_by_frame_id msg_id with
  | none => simp
  | some msg =>
    show (if (decodeResultList msg data).isEmpty = true then none
          else some (decodeResultList msg data)) = none ↔ _
    constructor
    · intro h
      right
      refine ⟨msg, rfl, ?_⟩
      by_cases he : (decodeResultList msg data).isEmpty = true
      · exact List.isEmpty_iff.mp he
      · rw [if_neg he] at h
        exact absurd h (by simp)
    · rintro (h | ⟨msg2, hm2, hres⟩)
      · exact absurd h (by simp)
      · have hmm2 : msg2 = msg := by
          injection hm2 with h2
          exact h2.symm
        subst hmm2
        rw [if_pos (List.isEmpty_iff.mpr hres)]

/-- Claim C5 (amended), witness: at frame id 1 of the sample database with
a two-byte payload, the equivalence evaluates concretely. -/
theorem claim5_unknown_frame_amended_witness :
    parser1.decode_message 1 [0, 0] = none ↔
      db1.get_message_by_frame_id 1 = none ∨
      ∃ msg, db1.get_message_by_frame_id 1 = some msg ∧
        decodeResultList msg [0, 0] = [] :=
  claim5_unknown_frame_amended parser1 db1 1 [0, 0] rfl

/-- Claim C6: unknown-signal encode rejection — when the input value map
contains a name that belongs to no signal of the target message,
`encode_message` fails and emits no byte buffer at all. -/
theorem claim6_unknown_signal_encode (p : DatabaseParser) (msg_id : Nat)
    (vals : List (String × ℚ)) (msg : Message) (nm : String) (q : ℚ)
    (hget : p.get_message_by_id msg_id = some msg)
    (hmem : (nm, q) ∈ vals)
    (hunk : ∀ s ∈ msg.signals, s.name ≠ nm) :
    p.encode_message msg_id vals = none := by
  cases hdb : p.db with
  | none =>
    unfold DatabaseParser.get_message_by_id at hget
    rw [hdb] at hget
    exact absurd hget (by simp)
  | some db =>
    have hguard : (vals.any fun v => msg.signals.all fun s => !(s.name == v.1)) = true := by
      rw [List.any_eq_true]
      refine ⟨(nm, q), hmem, ?_⟩
      rw [List.all_eq_true]
      intro s hsmem
      rw [beq_false_of_ne (hunk s hsmem)]
      rfl
    have henc : cantoolsEncode msg vals = Except.error unknownSignalErr := by
      unfold cantoolsEncode
      rw [hguard]
      rfl
    unfold DatabaseParser.encode_message DatabaseParser.encodeBody
    simp only [hdb, hget, henc]
    rfl

/-- Claim C6, witness: encoding message 1 of the sample database with a
value for the unknown signal name `X` yields no bytes. -/
theorem claim6_unknown_signal_encode_witness :
    parser1.encode_message 1 [(nameX, (0 : ℚ))] = none :=
  claim6_unknown_signal_encode parser1 1 [(nameX, (0 : ℚ))] msg1 nameX 0 (by decide)
    (by decide) (by decide)

/-! ## Loader claims -/

theorem load_database_parser_or_ok (p : DatabaseParser) (fs : FileSystem)
    (path : String) :
    (p.load_database fs path).parser = p ∨ (p.load_database fs path).ok = true := by
  unfold DatabaseParser.load_database
  split
  · exact Or.inl rfl
  · split
    · split
      · exact Or.inr rfl
      · exact Or.inl rfl
    · split
      · split
        · exact Or.inr rfl
        · split
          · exact Or.inl rfl
          · exact Or.inl rfl
      · exact Or.inl rfl

/-- Claim C7: load atomicity — whenever `load_database` fails (returns
`False`) for any reason, the previously loaded state (`db`, `file_path`,
`file_type`) is left exactly as it was before the call. -/
theorem claim7_load_atomic (p : DatabaseParser) (fs : FileSystem) (path : String)
    (h : (p.load_database fs path).ok = false) :
    (p.load_database fs path).parser = p := by
  rcases load_database_parser_or_ok p fs path with hp | hok
  · exact hp
  · rw [h] at hok
    exact absurd hok (by simp)

/-- A path to a missing database file. -/
def missingPath : String := "missing.dbc"

/-- A path to a legacy SYM file. -/
def symPath : String := "legacy.sym"

/-- A generic parse-failure exception text. -/
def errParse : String := "invalid syntax at line 3"

/-- An environment in which the requested file does not exist. -/
def fsMissing : FileSystem :=
  ⟨fun _ => false, fun _ => ".dbc", fun _ _ => Except.error errParse⟩

/-- An environment in which loading the SYM file raises the cantools
unsupported-version exception. -/
def fsSymVersion : FileSystem :=
  ⟨fun _ => true, fun _ => ".sym", fun _ _ => Except.error symVersionMarker⟩

/-- An environment in which loading the SYM file raises a generic parse
error. -/
def fsSymParse : FileSystem :=
  ⟨fun _ => true, fun _ => ".sym", fun _ _ => Except.error errParse⟩

/-- Claim C7, witness: a load of a missing file fails and leaves the
previously loaded sample state untouched. -/
theorem claim7_load_atomic_witness :
    (parser1.load_database fsMissing missingPath).parser = parser1 :=
  claim7_load_atomic parser1 fsMissing missingPath (by decide)

/-- A parser with nothing loaded yet. -/
def parser0 : DatabaseParser := ⟨none, none, none⟩

/-- Claim C2, counterexample: the recognized-but-unsupported legacy SYM
version and a generic SYM parse failure return the identical result to the
caller — the same `False` and the same unchanged parser state — so the
call's result carries no `UnsupportedDialectVersion` / `ParseError`
distinction. -/
theorem claim2_counterexample :
    (parser0.load_database fsSymVersion symPath).ok = false ∧
    (parser0.load_database fsSymVersion symPath).ok =
      (parser0.load_database fsSymParse symPath).ok ∧
    (parser0.load_database fsSymVersion symPath).parser =
      (parser0.load_database fsSymParse symPath).parser := by decide

/-- Claim C2 (amended): loading a recognized but unsupported legacy SYM
version fails — `load_database` returns `False`, produces no database (the
parser state is unchanged), and logs a descriptive unsupported-version
message — but the returned value is a bare boolean that the caller cannot
distinguish from a generic parse failure. -/
theorem claim2_unsupported_sym_amended (p : DatabaseParser) (fs : FileSystem)
    (path : String) (e : String)
    (hex : fs.pathExists path = true)
    (hdbc : fs.suffixLower path ≠ ".dbc")
    (hsuf : fs.suffixLower path = ".sym")
    (hload : fs.loadFile path (some strSym) = Except.error e)
    (hver : containsSubstr e symVersionMarker = true) :
    (p.load_database fs path).ok = false ∧
    (p.load_database fs path).parser = p ∧
    "cantools only supports SYM version 6.0" ∈ (p.load_database fs path).log := by
  unfold DatabaseParser.load_database
  rw [hex]
  simp only [Bool.not_true, Bool.false_eq_true, if_false, if_neg hdbc, if_pos hsuf,
    hload, hver, if_true]
  simp

/-- Claim C2 (amended), witness: the unsupported-version environment at
the legacy SYM path. -/
theorem claim2_unsupported_sym_amended_witness :
    (parser0.load_database fsSymVersion symPath).ok = false ∧
    (parser0.load_database fsSymVersion symPath).parser = parser0 ∧
    "cantools only supports SYM version 6.0" ∈
      (parser0.load_database fsSymVersion symPath).log :=
  claim2_unsupported_sym_amended parser0 fsSymVersion symPath symVersionMarker
    rfl (by decide) rfl rfl (by decide)

/-! ## Purity and no-panic claims -/

/-- Claim C9: purity — `decode_message` and `encode_message` mutate no
parser state (the embedding of the methods is stateless because the source
assigns no field of `self`), and their results are pure functions of the
loaded database snapshot and the call's inputs: the `file_path` and
`file_type` fields are irrelevant, so two calls with the same database and
the same inputs return equal results. -/
theorem claim9_codec_pure (db : Option Database) (fp ft fp2 ft2 : Option String)
    (msg_id : Nat) (data : List Nat) (vals : List (String × ℚ)) :
    DatabaseParser.decode_message ⟨db, fp, ft⟩ msg_id data =
      DatabaseParser.decode_message ⟨db, fp2, ft2⟩ msg_id data ∧
    DatabaseParser.encode_message ⟨db, fp, ft⟩ msg_id vals =
      DatabaseParser.encode_message ⟨db, fp2, ft2⟩ msg_id vals :=
  ⟨rfl, rfl⟩

/-- Claim C8: no panics — the codec wrappers are total: every exception of
the encode body (unknown signal, zero scale) is caught and surfaced as the
typed result `None`, and each call returns either `Some` result or `None`
for every input. -/
theorem claim8_no_panics (p : DatabaseParser) (msg_id : Nat) (data : List Nat)
    (vals : List (String × ℚ)) :
    (∀ e, p.encodeBody msg_id vals = Except.error e →
      p.encode_message msg_id vals = none) ∧
    ((p.decode_message msg_id data).isSome = true ∨
      p.decode_message msg_id data = none) ∧
    ((p.encode_message msg_id vals).isSome = true ∨
      p.encode_message msg_id vals = none) := by
  refine ⟨?_, ?_, ?_⟩
  · intro e he
    unfold DatabaseParser.encode_message
    cases hdb : p.db with
    | none => rfl
    | some db =>
      simp only [he]
      rfl
  · cases h : p.decode_message msg_id data with
    | none => exact Or.inr rfl
    | some m => exact Or.inl rfl
  · cases h : p.encode_message msg_id vals with
    | none => exact Or.inr rfl
    | some m => exact Or.inl rfl

/-- Claim C8, witness: the encode body raises on an unknown signal name
and `encode_message` surfaces it as `None`. -/
theorem claim8_no_panics_witness :
    parser1.encode_message 1 [(nameY, (0 : ℚ))] = none :=
  (claim8_no_panics parser1 1 [] [(nameY, (0 : ℚ))]).1 unknownSignalErr rfl

end Can
